import Mathlib

/-!
Verification of the documentation provisioning and lookup-serving subsystem
of the hydocs MCP server.

The TypeScript sources are shallowly embedded:
* the on-disk state touched by the provisioner (document files, the
  `class_lookup.json` index file, the `.last-download-url` marker) is a
  `FileSystem` value: a list of directories plus an association list from
  path to file contents;
* `fs/promises` calls become pure operations on `FileSystem`;
* the network (`downloadFile`) and the ZIP archive (`AdmZip`) are inputs of
  the provisioning model: the fetch either yields the archive's entries or
  fails, and extraction may suffer an I/O failure after a given number of
  entry writes;
* thrown JavaScript errors become `Except` / error-sum results, one
  constructor per distinct throw site.
-/

set_option autoImplicit false

namespace Hydocs

/-- Embedding of `path.join(dir, rel)` as used by the sources (always a plain
two-component join). -/
def pathJoin (dir rel : String) : String := dir ++ "/" ++ rel

/-- On-disk state: the directories that exist and an association list from
file path to contents.  Reads consult the first matching entry; writes
overwrite by filtering out older entries for the same path. -/
structure FileSystem where
  dirs : List String
  files : List (String × String)
deriving Repr, DecidableEq

/-- Reading a file, `fs.readFile(p)`: `some` contents when the file exists, `none` when the
read fails (file absent). -/
def FileSystem.read (fs : FileSystem) (p : String) : Option String :=
  (fs.files.find? (fun e => e.1 == p)).map (fun e => e.2)

/-- Writing a file, `fs.writeFile(p, c)`: overwrite or create the file at `p`. -/
def FileSystem.write (fs : FileSystem) (p : String) (c : String) : FileSystem :=
  ⟨fs.dirs, (p, c) :: fs.files.filter (fun e => e.1 != p)⟩

/-- Creating a directory, `fs.mkdir` with the recursive option: ensure directory `d` exists. -/
def FileSystem.mkdir (fs : FileSystem) (d : String) : FileSystem :=
  if fs.dirs.contains d then fs else ⟨d :: fs.dirs, fs.files⟩

@[simp]
theorem FileSystem.read_write_self (fs : FileSystem) (p c : String) :
    (fs.write p c).read p = some c := by
  simp [FileSystem.read, FileSystem.write]

theorem find?_filter_ne (p q : String) (h : q ≠ p) :
    ∀ l : List (String × String),
      (l.filter (fun e => e.1 != p)).find? (fun e => e.1 == q) =
        l.find? (fun e => e.1 == q)
  | [] => rfl
  | e :: rest => by
    rcases eq_or_ne e.1 p with he | he
    · rw [List.filter_cons_of_neg (by simp [he]),
        List.find?_cons_of_neg _ (by simp [he]; exact fun hh => h hh.symm)]
      exact find?_filter_ne p q h rest
    · rw [List.filter_cons_of_pos (by simp [he])]
      rcases eq_or_ne e.1 q with heq | heq
      · rw [List.find?_cons_of_pos _ (by simp [heq]),
          List.find?_cons_of_pos _ (by simp [heq])]
      · rw [List.find?_cons_of_neg _ (by simp [heq]),
          List.find?_cons_of_neg _ (by simp [heq])]
        exact find?_filter_ne p q h rest

theorem FileSystem.read_write_ne (fs : FileSystem) (p q c : String) (h : q ≠ p) :
    (fs.write p c).read q = fs.read q := by
  simp only [FileSystem.read, FileSystem.write]
  rw [List.find?_cons_of_neg _ (by simp; exact fun hh => h hh.symm),
    find?_filter_ne p q h]

@[simp]
theorem FileSystem.read_mkdir (fs : FileSystem) (d p : String) :
    (fs.mkdir d).read p = fs.read p := by
  simp only [FileSystem.mkdir]
  split <;> simp [FileSystem.read]

@[simp]
theorem FileSystem.dirs_write (fs : FileSystem) (p c : String) :
    (fs.write p c).dirs = fs.dirs := rfl

/-! ### JavaScript string primitives

The handlers use `String.prototype.trim`, `toLowerCase` and `includes`.
They are embedded as structurally recursive functions over the character
list of a `String` (the built-in `String.trim` is not used because the
embedding keeps every definition kernel-computable). -/

/-- The whitespace stripped by `String.prototype.trim` (ASCII forms). -/
def jsWhitespace (c : Char) : Bool :=
  c == ' ' || c == '\t' || c == '\n' || c == '\r'

/-- JavaScript `s.trim()`: strip leading and trailing whitespace. -/
def jsTrim (s : String) : String :=
  ⟨((s.data.dropWhile jsWhitespace).reverse.dropWhile jsWhitespace).reverse⟩

/-- JavaScript `s.toLowerCase()` (ASCII case-folding; the documentation
keys are ASCII identifiers). -/
def jsToLower (s : String) : String :=
  ⟨s.data.map Char.toLower⟩

/-- JavaScript emptiness test on a string (`!query`, `!className`). -/
def jsIsEmpty (s : String) : Bool := s.data.isEmpty

/-! ### The lookup index data model (`src/types/index.ts`) -/

/-- One value of the `ClassLookup` JSON object: `{full_name, path, type,
package}`. -/
structure ClassInfo where
  full_name : String
  path : String
  type : String
  package : String
deriving Repr, DecidableEq

/-- The parsed `class_lookup.json` object, keys in iteration order
(JavaScript objects iterate string keys in insertion order). -/
abbrev ClassLookup := List (String × ClassInfo)

/-! ### Query engine (`src/tools/handlers.ts`) -/

/-- Embedding of `hay.includes(sub)` on character lists: `sub` occurs contiguously in
`hay`. -/
def containsSub (hay sub : List Char) : Bool :=
  sub.isPrefixOf hay ||
    match hay with
    | [] => false
    | _ :: t => containsSub t sub

/-- Embedding of `s.includes(sub)` for strings. -/
def strContains (s sub : String) : Bool := containsSub s.data sub.data

def MAX_SEARCH_RESULTS : Nat := 25

/-- The line pushed for one search match:
`` `- ${info.full_name} (${info.type})` ``. -/
def renderEntry (e : String × ClassInfo) : String :=
  "- " ++ e.2.full_name ++ " (" ++ e.2.type ++ ")"

/-- The `for (const [className, info] of Object.entries(lookup))` loop of
`searchHytaleClasses`: accumulate rendered matches, skip entries whose
`path` was already seen among matches, and stop as soon as the match list
reaches `MAX_SEARCH_RESULTS`. -/
def searchGo (query : String) :
    ClassLookup → List String → List String → List String
  | [], _, ms => ms
  | (className, info) :: rest, seenPaths, ms =>
    if strContains (jsToLower className) query && !(seenPaths.contains info.path) then
      let ms2 := ms ++ [renderEntry (className, info)]
      if MAX_SEARCH_RESULTS ≤ ms2.length then ms2
      else searchGo query rest (info.path :: seenPaths) ms2
    else searchGo query rest seenPaths ms

inductive SearchError where
  | lookupMissing
  | emptyQuery
deriving Repr, DecidableEq

/-- The sentinel rendered when no entry matches. -/
def noMatchesText : String := "No matches found for your search query."

/-- The handler `searchHytaleClasses` after the index has been loaded (`lookup?` is the
result of `loadLookup`): reject a missing index and an empty
(trimmed, case-folded) query, otherwise run the search loop and join the
match lines. -/
def searchHytaleClasses (lookup? : Option ClassLookup) (rawQuery : String) :
    Except SearchError String :=
  match lookup? with
  | none => .error .lookupMissing
  | some lookup =>
    let query := jsTrim (jsToLower rawQuery)
    if jsIsEmpty query then .error .emptyQuery
    else
      let ms := searchGo query lookup [] []
      .ok (if ms.isEmpty then noMatchesText
           else String.intercalate "\n" ms)

/-- Spec-side search (follows the spec's words, to be compared with the
source's loop): filter the index, in iteration order, to the entries whose
key contains the query case-insensitively; deduplicate by `path`, keeping
the first occurrence; truncate to `MAX_SEARCH_RESULTS`. -/
def dedupByPath : List (String × ClassInfo) → List String → List (String × ClassInfo)
  | [], _ => []
  | e :: rest, seen =>
    if seen.contains e.2.path then dedupByPath rest seen
    else e :: dedupByPath rest (e.2.path :: seen)

/-- Spec-side search result list (see `dedupByPath`). -/
def searchSpec (query : String) (lookup : ClassLookup) : List (String × ClassInfo) :=
  (dedupByPath (lookup.filter (fun e => strContains (jsToLower e.1) query)) []).take
    MAX_SEARCH_RESULTS

/-- JavaScript object property access `lookup[className]` (keys are
unique in a parsed JSON object; the association list's first binding is the
binding). -/
def lookupGet (lookup : ClassLookup) (key : String) : Option ClassInfo :=
  (lookup.find? (fun e => e.1 == key)).map (fun e => e.2)

/-- Name resolution of `readHytaleClassDocs`: exact key first, then the
first key equal under case-folding. -/
def resolveClass (lookup : ClassLookup) (className : String) : Option ClassInfo :=
  match lookupGet lookup className with
  | some info => some info
  | none =>
    (lookup.find? (fun e => jsToLower e.1 == jsToLower className)).map (fun e => e.2)

/-- Spec-side resolution (follows the spec's words): (1) exact key match;
(2) if absent, the first key in index iteration order equal under
case-folding — stated via `filter`/`head?` rather than the source's scan. -/
def resolveSpec (lookup : ClassLookup) (className : String) : Option ClassInfo :=
  match lookupGet lookup className with
  | some info => some info
  | none =>
    ((lookup.filter (fun e => jsToLower e.1 == jsToLower className)).head?).map
      (fun e => e.2)

/-- The distinct failure modes of `readHytaleClassDocs`, one constructor
per throw site: missing index, empty name, unresolved name, and a
propagated `fs.readFile` error for a resolved name whose file is absent. -/
inductive RetrieveError where
  | lookupMissing
  | emptyName
  | nameNotFound (name : String)
  | fileReadError (path : String)
deriving Repr, DecidableEq

/-- The handler `readHytaleClassDocs`: trim the name, reject empty, resolve
(exact-then-case-insensitive), then read the file at
`path.join(docsDir, classInfo.path)` and return its contents verbatim. -/
def readHytaleClassDocs (fs : FileSystem) (lookup? : Option ClassLookup)
    (docsDir : String) (fullClassName : String) : Except RetrieveError String :=
  match lookup? with
  | none => .error .lookupMissing
  | some lookup =>
    let className := jsTrim fullClassName
    if jsIsEmpty className then .error .emptyName
    else
      match resolveClass lookup className with
      | none => .error (.nameNotFound className)
      | some classInfo =>
        let docPath := pathJoin docsDir classInfo.path
        match fs.read docPath with
        | some content => .ok content
        | none => .error (.fileReadError docPath)

/-! ### Lookup cache (`src/utils/lookup.ts`) -/

/-- The module-level `let lookupCache: ClassLookup | null = null`. -/
structure LookupState where
  lookupCache : Option ClassLookup
deriving Repr, DecidableEq

/-- The loader `loadLookup(lookupFile)`: return the cache when populated; otherwise
read and parse the index file, caching only on success (the `catch` block
returns `null` without touching the cache).  `parse` stands for
`JSON.parse` (`none` = the content is unparseable and the parse throws).
The returned `Bool` records whether this call performed a disk read. -/
def loadLookup (parse : String → Option ClassLookup) (fs : FileSystem)
    (lookupFile : String) (st : LookupState) :
    Option ClassLookup × LookupState × Bool :=
  match st.lookupCache with
  | some cache => (some cache, st, false)
  | none =>
    match fs.read lookupFile with
    | none => (none, st, true)
    | some data =>
      match parse data with
      | none => (none, st, true)
      | some lookup => (some lookup, ⟨some lookup⟩, true)

/-! ### Provisioner (`src/utils/download.ts`) -/

def LAST_URL_FILE : String := ".last-download-url"

/-- The path of the provenance marker: `path.join(docsDir, LAST_URL_FILE)`. -/
def lastUrlPath (docsDir : String) : String := pathJoin docsDir LAST_URL_FILE

/-- Change detection, `hasUrlChanged(docsDir, currentUrl)`: compare the stored identifier with
the configured one after trimming both; a missing/unreadable marker file
counts as changed. -/
def hasUrlChanged (fs : FileSystem) (docsDir currentUrl : String) : Bool :=
  match fs.read (lastUrlPath docsDir) with
  | some lastUrl => jsTrim lastUrl != jsTrim currentUrl
  | none => true

/-- Marker persistence, `saveLastUrl(docsDir, url)`: write the marker file; a write failure
(`writeFails` lists the paths whose writes throw) is caught and only
logged, leaving the file system unchanged. -/
def saveLastUrl (fs : FileSystem) (writeFails : List String)
    (docsDir url : String) : FileSystem :=
  let p := lastUrlPath docsDir
  if writeFails.contains p then fs else fs.write p url

/-- The sequential entry writes of `zip.extractAllTo(destDir, true)`: each
archive entry is written (overwriting) at `path.join(destDir, name)`. -/
def extractEntries (fs : FileSystem) (destDir : String) :
    List (String × String) → FileSystem
  | [] => fs
  | (name, content) :: rest =>
    extractEntries (fs.write (pathJoin destDir name) content) destDir rest

/-- Extraction, `extractZip(buffer, destDir)`: ensure the directory exists, then write
the archive entries in place.  `failAfter = some k` models an I/O failure
after `k` entry writes (the thrown error is wrapped and rethrown); the
returned `Bool` is `true` on success. -/
def extractZip (fs : FileSystem) (destDir : String)
    (entries : List (String × String)) (failAfter : Option Nat) :
    FileSystem × Bool :=
  let fs0 := fs.mkdir destDir
  match failAfter with
  | none => (extractEntries fs0 destDir entries, true)
  | some k => (extractEntries fs0 destDir (entries.take k), false)

/-- Validation, `validateDocsDirectory(docsDir)`: `fs.access` on the directory and on
`class_lookup.json` inside it; `true` iff both checks pass. -/
def validateDocsDirectory (fs : FileSystem) (docsDir : String) : Bool :=
  fs.dirs.contains docsDir &&
    (fs.read (pathJoin docsDir "class_lookup.json")).isSome

/-- The distinct failure modes of `downloadAndExtractDocs`, one constructor
per throw site: a failed/timed-out download, a failed extraction, and the
`"Extracted documentation is missing class_lookup.json"` validation
error.  Every one of them is rethrown by the surrounding `catch`. -/
inductive ProvisionError where
  | fetchFailed
  | extractFailed
  | invalidBundle
deriving Repr, DecidableEq

instance : DecidableEq (Except ProvisionError Unit)
  | .ok a, .ok b => isTrue (by cases a; cases b; rfl)
  | .ok _, .error _ => isFalse (fun h => by cases h)
  | .error _, .ok _ => isFalse (fun h => by cases h)
  | .error a, .error b =>
    if h : a = b then isTrue (by rw [h])
    else isFalse (fun hh => by cases hh; exact h rfl)

/-- Outcome of one provisioning run: the resulting file system, the
settled promise (`.ok ()` = the function returned, `.error e` = it threw),
and how many network calls (`downloadFile` invocations) it made. -/
structure ProvisionOutcome where
  fs : FileSystem
  result : Except ProvisionError Unit
  networkCalls : Nat
deriving Repr, DecidableEq

/-- The environment of one provisioning run: the configuration plus the
behaviour of the external world (network and I/O). `fetchResult = some es`
means the download succeeds and the archive holds entries `es`;
`none` means `downloadFile` throws.  `extractFailAfter` and `writeFails`
are as in `extractZip` and `saveLastUrl`. -/
structure ProvisionEnv where
  docsUrl : Option String
  docsDir : String
  fetchResult : Option (List (String × String))
  extractFailAfter : Option Nat
  writeFails : List String
deriving Repr, DecidableEq

/-- The provisioning entry point `downloadAndExtractDocs(config)`: skip when no URL is configured
(JavaScript falsiness also skips an empty string), skip when the URL is
unchanged, otherwise download, extract, validate, and save the marker;
any error in the `try` block is logged and rethrown. -/
def downloadAndExtractDocs (env : ProvisionEnv) (fs : FileSystem) :
    ProvisionOutcome :=
  match env.docsUrl with
  | none => ⟨fs, .ok (), 0⟩
  | some url =>
    if jsIsEmpty url then ⟨fs, .ok (), 0⟩
    else if !(hasUrlChanged fs env.docsDir url) then ⟨fs, .ok (), 0⟩
    else
      match env.fetchResult with
      | none => ⟨fs, .error .fetchFailed, 1⟩
      | some entries =>
        match extractZip fs env.docsDir entries env.extractFailAfter with
        | (fs1, false) => ⟨fs1, .error .extractFailed, 1⟩
        | (fs1, true) =>
          if !(validateDocsDirectory fs1 env.docsDir) then
            ⟨fs1, .error .invalidBundle, 1⟩
          else
            ⟨saveLastUrl fs1 env.writeFails env.docsDir url, .ok (), 1⟩

/-- The persisted bundle identifier of a store (contents of the marker
file). -/
def storedId (fs : FileSystem) (docsDir : String) : Option String :=
  fs.read (lastUrlPath docsDir)

/-- The content the extraction of `entries` leaves at path `p` (the last
archive entry mapping to `p` wins, since later writes overwrite), or
`none` when no entry maps to `p`. -/
def writtenContent (destDir : String) :
    List (String × String) → String → Option String
  | [], _ => none
  | e :: rest, p =>
    match writtenContent destDir rest p with
    | some c => some c
    | none => if pathJoin destDir e.1 == p then some e.2 else none

/-- Does every index entry's `path` resolve to an existing file inside the
store?  (The spec's provisioning-time per-entry invariant.) -/
def entryFilesExist (fs : FileSystem) (docsDir : String)
    (lookup : ClassLookup) : Bool :=
  lookup.all (fun e => (fs.read (pathJoin docsDir e.2.path)).isSome)

/-! ### Helper lemmas -/

theorem find?_eq_head_filter {α : Type} (p : α → Bool) :
    ∀ l : List α, l.find? p = (l.filter p).head?
  | [] => rfl
  | a :: l => by
    by_cases h : p a
    · rw [List.find?_cons_of_pos _ h, List.filter_cons_of_pos h]
      rfl
    · rw [List.find?_cons_of_neg _ h, List.filter_cons_of_neg h]
      exact find?_eq_head_filter p l

/-- The source's case-insensitive scan agrees with the spec's
"first key in index iteration order equal under case-folding". -/
theorem resolveClass_eq_resolveSpec (lookup : ClassLookup) (className : String) :
    resolveClass lookup className = resolveSpec lookup className := by
  unfold resolveClass resolveSpec
  rw [find?_eq_head_filter]

/-- The search loop is filter-then-dedup-then-truncate. -/
theorem searchGo_eq (query : String) :
    ∀ (es : ClassLookup) (seen ms : List String),
      ms.length < MAX_SEARCH_RESULTS →
      searchGo query es seen ms =
        ms ++ ((dedupByPath
            (es.filter (fun e => strContains (jsToLower e.1) query)) seen).map
          renderEntry).take (MAX_SEARCH_RESULTS - ms.length)
  | [], seen, ms, _ => by
    simp [searchGo, dedupByPath]
  | (className, info) :: rest, seen, ms, hms => by
    cases hmatch : strContains (jsToLower className) query with
    | false =>
      rw [List.filter_cons_of_neg (by simp [hmatch])]
      simp only [searchGo, hmatch, Bool.false_and, Bool.false_eq_true,
        if_false]
      exact searchGo_eq query rest seen ms hms
    | true =>
      rw [List.filter_cons_of_pos (by simp [hmatch])]
      cases hseen : seen.contains info.path with
      | true =>
        have hdedup :
            dedupByPath ((className, info) ::
                rest.filter (fun e => strContains (jsToLower e.1) query)) seen =
              dedupByPath
                (rest.filter (fun e => strContains (jsToLower e.1) query)) seen := by
          rw [dedupByPath, if_pos hseen]
        rw [hdedup]
        simp only [searchGo, hmatch, hseen, Bool.true_and, Bool.not_true,
          Bool.false_eq_true, if_false]
        exact searchGo_eq query rest seen ms hms
      | false =>
        have hdedup :
            dedupByPath ((className, info) ::
                rest.filter (fun e => strContains (jsToLower e.1) query)) seen =
              (className, info) ::
                dedupByPath
                  (rest.filter (fun e => strContains (jsToLower e.1) query))
                  (info.path :: seen) := by
          rw [dedupByPath, if_neg (by simpa using hseen)]
        rw [hdedup, List.map_cons]
        have htake : MAX_SEARCH_RESULTS - ms.length =
            (MAX_SEARCH_RESULTS - (ms.length + 1)) + 1 := by omega
        rw [htake, List.take_succ_cons]
        simp only [searchGo, hmatch, hseen, Bool.true_and, Bool.not_false,
          if_true]
        by_cases hfull :
            MAX_SEARCH_RESULTS ≤ (ms ++ [renderEntry (className, info)]).length
        · rw [if_pos hfull]
          have hlen : MAX_SEARCH_RESULTS - (ms.length + 1) = 0 := by
            simp only [List.length_append, List.length_cons,
              List.length_nil] at hfull
            omega
          rw [hlen, List.take_zero]
        · rw [if_neg hfull]
          rw [searchGo_eq query rest (info.path :: seen)
            (ms ++ [renderEntry (className, info)])
            (by simp only [List.length_append, List.length_cons,
                  List.length_nil] at hfull ⊢; omega)]
          simp [List.append_assoc]

/-- Reading after a sequence of extraction writes: the last archive entry
mapping to the path wins; paths no entry maps to keep their prior
content. -/
theorem extractEntries_read (destDir : String) :
    ∀ (es : List (String × String)) (fs : FileSystem) (p : String),
      (extractEntries fs destDir es).read p =
        (match writtenContent destDir es p with
         | some c => some c
         | none => fs.read p)
  | [], fs, p => by simp [extractEntries, writtenContent]
  | (name, content) :: rest, fs, p => by
    rw [extractEntries, extractEntries_read destDir rest, writtenContent]
    cases hw : writtenContent destDir rest p with
    | some c => rfl
    | none =>
      by_cases hp : pathJoin destDir name = p
      · have hbeq : (pathJoin destDir name == p) = true := by simp [hp]
        simp only [hbeq, if_true]
        rw [hp, FileSystem.read_write_self]
      · have hbeq : (pathJoin destDir name == p) = false :=
          beq_eq_false_iff_ne.mpr hp
        simp only [hbeq, Bool.false_eq_true, if_false]
        rw [FileSystem.read_write_ne _ _ _ _ (fun h => hp h.symm)]

/-- No archive entry maps to `p` ⇒ extraction leaves `p`'s content
alone. -/
theorem writtenContent_none (destDir : String) (p : String) :
    ∀ es : List (String × String),
      (∀ e ∈ es, pathJoin destDir e.1 ≠ p) →
      writtenContent destDir es p = none
  | [], _ => rfl
  | e :: rest, h => by
    rw [writtenContent, writtenContent_none destDir p rest
      (fun x hx => h x (List.mem_cons_of_mem e hx))]
    have hbeq : (pathJoin destDir e.1 == p) = false :=
      beq_eq_false_iff_ne.mpr (h e (List.mem_cons_self e rest))
    simp [hbeq]

theorem extractEntries_read_unwritten (destDir : String)
    (es : List (String × String)) (fs : FileSystem) (p : String)
    (h : ∀ e ∈ es, pathJoin destDir e.1 ≠ p) :
    (extractEntries fs destDir es).read p = fs.read p := by
  rw [extractEntries_read, writtenContent_none destDir p es h]

@[simp]
theorem dirs_extractEntries (destDir : String) :
    ∀ (es : List (String × String)) (fs : FileSystem),
      (extractEntries fs destDir es).dirs = fs.dirs
  | [], fs => rfl
  | e :: rest, fs => by
    rw [extractEntries, dirs_extractEntries destDir rest]
    rfl

/-- The index file and the URL marker are different paths (their names have
different lengths). -/
theorem index_ne_marker (d : String) :
    pathJoin d "class_lookup.json" ≠ lastUrlPath d := by
  intro h
  have hlen := congrArg String.length h
  simp only [pathJoin, lastUrlPath, LAST_URL_FILE, String.length_append] at hlen
  have h1 : ("class_lookup.json" : String).length = 17 := rfl
  have h2 : (".last-download-url" : String).length = 18 := rfl
  omega

/-- Writing the URL marker does not disturb validation. -/
theorem validate_write_marker (fs : FileSystem) (d url : String)
    (h : validateDocsDirectory fs d = true) :
    validateDocsDirectory (fs.write (lastUrlPath d) url) d = true := by
  unfold validateDocsDirectory at h ⊢
  rw [FileSystem.dirs_write,
    FileSystem.read_write_ne _ _ _ _ (index_ne_marker d)]
  exact h

/-- Bool-level condition: no entry of the fetched archive is written at the
URL marker's path. -/
def archiveAvoidsMarker (env : ProvisionEnv) : Bool :=
  match env.fetchResult with
  | none => true
  | some es => es.all (fun e => pathJoin env.docsDir e.1 != lastUrlPath env.docsDir)

theorem storedId_extractZip (fs : FileSystem) (d : String)
    (entries : List (String × String)) (failAfter : Option Nat)
    (h : ∀ e ∈ entries, pathJoin d e.1 ≠ lastUrlPath d) :
    storedId (extractZip fs d entries failAfter).1 d = storedId fs d := by
  unfold storedId extractZip
  cases failAfter with
  | none =>
    rw [extractEntries_read_unwritten d entries _ _ h, FileSystem.read_mkdir]
  | some k =>
    rw [extractEntries_read_unwritten d (entries.take k) _ _
      (fun e he => h e (List.take_subset k entries he)), FileSystem.read_mkdir]

/-! ### Claim theorems -/

/-- Rendering of the final search response: the match lines joined by
newline, or the no-matches sentinel. -/
def renderSearch (l : List (String × ClassInfo)) : String :=
  if l.isEmpty then noMatchesText
  else String.intercalate "\n" (l.map renderEntry)

/-- C3: for every loaded index and every query that is non-empty after
trimming and case-folding, Search returns exactly the entries whose
fully-qualified name contains the query as a case-insensitive substring, in
index iteration order, deduplicated by the entry's `path` (only the first
matching name with a given path is kept), truncated to at most
`MAX_SEARCH_RESULTS = 25` results, with no truncation indicator
(`searchSpec` is exactly filter, dedup-by-path, take 25). -/
theorem c3_search_filter_dedup_cap (lookup : ClassLookup) (rawQuery : String)
    (h : jsIsEmpty (jsTrim (jsToLower rawQuery)) = false) :
    searchHytaleClasses (some lookup) rawQuery =
      .ok (renderSearch (searchSpec (jsTrim (jsToLower rawQuery)) lookup)) := by
  unfold searchHytaleClasses
  simp only [h, Bool.false_eq_true, if_false]
  have hgo := searchGo_eq (jsTrim (jsToLower rawQuery)) lookup [] []
    (by simp [MAX_SEARCH_RESULTS])
  simp only [List.nil_append, List.length_nil, Nat.sub_zero] at hgo
  rw [hgo]
  unfold renderSearch searchSpec
  rw [← List.map_take]
  cases hl : (dedupByPath
      (lookup.filter
        (fun e => strContains (jsToLower e.1) (jsTrim (jsToLower rawQuery)))) []).take
      MAX_SEARCH_RESULTS with
  | nil => rfl
  | cons x xs => rfl

def lkW : ClassLookup :=
  [("a.Foo", ⟨"a.Foo", "f1", "class", "a"⟩),
   ("a.Bar", ⟨"a.Bar", "f2", "class", "a"⟩),
   ("a.Baz", ⟨"a.Baz", "f1", "class", "a"⟩)]

theorem c3_search_filter_dedup_cap_witness :
    jsIsEmpty (jsTrim (jsToLower "ba")) = false
    ∧ searchHytaleClasses (some lkW) "ba" =
        .ok (renderSearch (searchSpec (jsTrim (jsToLower "ba")) lkW)) :=
  ⟨by decide, c3_search_filter_dedup_cap lkW "ba" (by decide)⟩

/-- C4: for every loaded index and every name non-empty after trimming,
Retrieve resolves by exact key match first, and only if absent by a
case-insensitive scan whose first case-folded-equal key in index iteration
order wins (`resolveSpec` states this as filter-then-head); on resolution
success it returns the file contents at the entry's path verbatim. -/
theorem c4_retrieve_resolution_order (fs : FileSystem) (lookup : ClassLookup)
    (docsDir fullClassName : String)
    (h : jsIsEmpty (jsTrim fullClassName) = false) :
    readHytaleClassDocs fs (some lookup) docsDir fullClassName =
      match resolveSpec lookup (jsTrim fullClassName) with
      | none => .error (.nameNotFound (jsTrim fullClassName))
      | some info =>
        match fs.read (pathJoin docsDir info.path) with
        | some content => .ok content
        | none => .error (.fileReadError (pathJoin docsDir info.path)) := by
  unfold readHytaleClassDocs
  simp only [h, Bool.false_eq_true, if_false]
  rw [resolveClass_eq_resolveSpec]

def fsW : FileSystem := ⟨["d"], [("d/f1", "bodyF1")]⟩

theorem c4_retrieve_resolution_order_witness :
    jsIsEmpty (jsTrim "A.FOO") = false
    ∧ readHytaleClassDocs fsW (some lkW) "d" "A.FOO" =
        match resolveSpec lkW (jsTrim "A.FOO") with
        | none => .error (.nameNotFound (jsTrim "A.FOO"))
        | some info =>
          match fsW.read (pathJoin "d" info.path) with
          | some content => .ok content
          | none => .error (.fileReadError (pathJoin "d" info.path)) :=
  ⟨by decide, c4_retrieve_resolution_order fsW lkW "d" "A.FOO" (by decide)⟩

/-- C5: when a name resolves to an index entry whose backing file is
missing, Retrieve fails with the propagated file-read error, a constructor
of `RetrieveError` distinct from `nameNotFound` (different error kind, not
merely different text). -/
theorem c5_missing_file_distinct_error (fs : FileSystem)
    (lookup : ClassLookup) (docsDir fullClassName : String) (info : ClassInfo)
    (h : jsIsEmpty (jsTrim fullClassName) = false)
    (hres : resolveClass lookup (jsTrim fullClassName) = some info)
    (hread : fs.read (pathJoin docsDir info.path) = none) :
    readHytaleClassDocs fs (some lookup) docsDir fullClassName =
      .error (.fileReadError (pathJoin docsDir info.path))
    ∧ ∀ s, RetrieveError.fileReadError (pathJoin docsDir info.path) ≠
        RetrieveError.nameNotFound s := by
  constructor
  · unfold readHytaleClassDocs
    simp only [h, Bool.false_eq_true, if_false, hres, hread]
  · intro s hcontra
    cases hcontra

def fsW5 : FileSystem := ⟨["d"], []⟩

theorem c5_missing_file_distinct_error_witness :
    jsIsEmpty (jsTrim "a.Bar") = false
    ∧ resolveClass lkW (jsTrim "a.Bar") = some ⟨"a.Bar", "f2", "class", "a"⟩
    ∧ fsW5.read (pathJoin "d" "f2") = none
    ∧ (readHytaleClassDocs fsW5 (some lkW) "d" "a.Bar" =
          .error (.fileReadError (pathJoin "d" "f2"))
        ∧ ∀ s, RetrieveError.fileReadError (pathJoin "d" "f2") ≠
            RetrieveError.nameNotFound s) :=
  ⟨by decide, by decide, by decide,
    c5_missing_file_distinct_error fsW5 lkW "d" "a.Bar"
      ⟨"a.Bar", "f2", "class", "a"⟩ (by decide) (by decide) (by decide)⟩

def lkC6 : ClassLookup := [("a.Foo", ⟨"a.Foo", "f1", "class", "a"⟩)]

/-- A concrete stand-in for `JSON.parse` in the C6 scenario: the content
`"IDX"` parses to `lkC6`, everything else is unparseable. -/
def parseC6 : String → Option ClassLookup :=
  fun s => if s == "IDX" then some lkC6 else none

def fsC6empty : FileSystem := ⟨[], []⟩

def fsC6fixed : FileSystem := ⟨[], [("d/class_lookup.json", "IDX")]⟩

/-- C6 counterexample: after a failed load (index file missing) the very
next call re-reads the disk and, the file now being present and
parseable, succeeds — the failure was neither permanent nor
unretried, refuting the claim that a load failure persists for the process
lifetime. -/
theorem c6_counterexample :
    (loadLookup parseC6 fsC6empty "d/class_lookup.json" ⟨none⟩).1 = none
    ∧ (loadLookup parseC6 fsC6fixed "d/class_lookup.json"
        (loadLookup parseC6 fsC6empty "d/class_lookup.json" ⟨none⟩).2.1).2.2 = true
    ∧ (loadLookup parseC6 fsC6fixed "d/class_lookup.json"
        (loadLookup parseC6 fsC6empty "d/class_lookup.json" ⟨none⟩).2.1).1 =
      some lkC6 := by
  refine ⟨rfl, rfl, rfl⟩

/-- C6 amended: only a successful load is memoized.  A failed load leaves
the cache empty, so every subsequent query performs the disk read again;
the failure persists only while the index file stays missing or
unparseable, and a later call succeeds as soon as the file is present and
parseable. -/
theorem c6_failed_load_retried (parse : String → Option ClassLookup)
    (fs : FileSystem) (lookupFile : String) (st : LookupState)
    (h : (loadLookup parse fs lookupFile st).1 = none) :
    (loadLookup parse fs lookupFile st).2.1 = st
    ∧ (∀ fs2, (loadLookup parse fs2 lookupFile st).2.2 = true)
    ∧ (∀ fs2 data lookup, fs2.read lookupFile = some data →
        parse data = some lookup →
        loadLookup parse fs2 lookupFile st = (some lookup, ⟨some lookup⟩, true)) := by
  have hcache : st.lookupCache = none := by
    cases hc : st.lookupCache with
    | none => rfl
    | some c => simp [loadLookup, hc] at h
  refine ⟨?_, ?_, ?_⟩
  · simp only [loadLookup, hcache] at h ⊢
    cases hread : fs.read lookupFile with
    | none => rfl
    | some data =>
      simp only [hread] at h ⊢
      cases hparse : parse data with
      | none => rfl
      | some lookup => simp [hparse] at h
  · intro fs2
    simp only [loadLookup, hcache]
    split
    · rfl
    · split <;> rfl
  · intro fs2 data lookup h1 h2
    simp [loadLookup, hcache, h1, h2]

theorem c6_failed_load_retried_witness :
    (loadLookup parseC6 fsC6empty "d/class_lookup.json" ⟨none⟩).1 = none
    ∧ ((loadLookup parseC6 fsC6empty "d/class_lookup.json" ⟨none⟩).2.1 = ⟨none⟩
      ∧ (∀ fs2,
          (loadLookup parseC6 fs2 "d/class_lookup.json" ⟨none⟩).2.2 = true)
      ∧ (∀ fs2 data lookup, fs2.read "d/class_lookup.json" = some data →
          parseC6 data = some lookup →
          loadLookup parseC6 fs2 "d/class_lookup.json" ⟨none⟩ =
            (some lookup, ⟨some lookup⟩, true))) :=
  ⟨rfl, c6_failed_load_retried parseC6 fsC6empty "d/class_lookup.json" ⟨none⟩ rfl⟩

def fsC1 : FileSystem :=
  ⟨["d"], [("d/class_lookup.json", "oldIndex"), ("d/a.md", "oldA"),
    ("d/.last-download-url", "u1")]⟩

def entriesC1 : List (String × String) :=
  [("class_lookup.json", "newIndex"), ("a.md", "newA")]

/-- C1 counterexample: extraction into a previously valid store fails after
one of two entries; afterwards a reader sees the NEW index next to the OLD
body file — a half-extracted store — and the prior store has been
modified, refuting atomicity. -/
theorem c1_counterexample :
    validateDocsDirectory fsC1 "d" = true
    ∧ (extractZip fsC1 "d" entriesC1 (some 1)).2 = false
    ∧ (extractZip fsC1 "d" entriesC1 (some 1)).1.read "d/class_lookup.json" =
        some "newIndex"
    ∧ (extractZip fsC1 "d" entriesC1 (some 1)).1.read "d/a.md" = some "oldA"
    ∧ (extractZip fsC1 "d" entriesC1 (some 1)).1 ≠ fsC1 := by
  refine ⟨rfl, rfl, rfl, rfl, by decide⟩

/-- C1 amended: extraction writes directly into the store, overwriting in
place; when it fails after `k` entries, the store shows the content of the
first `k` archive entries at their canonical paths and the prior content
everywhere else — so a reader can observe a half-extracted store, and a
previously valid store is preserved only at the paths the first `k`
entries did not touch. -/
theorem c1_extraction_in_place (fs : FileSystem) (destDir : String)
    (entries : List (String × String)) (k : Nat) :
    (extractZip fs destDir entries (some k)).2 = false
    ∧ ∀ p, (extractZip fs destDir entries (some k)).1.read p =
        (match writtenContent destDir (entries.take k) p with
         | some c => some c
         | none => fs.read p) := by
  constructor
  · rfl
  · intro p
    show (extractEntries (fs.mkdir destDir) destDir (entries.take k)).read p = _
    rw [extractEntries_read, FileSystem.read_mkdir]

def fsC2 : FileSystem :=
  ⟨["d"], [("d/class_lookup.json", "J"), ("d/a.md", "A"),
    ("d/.last-download-url", "u1")]⟩

def envC2 : ProvisionEnv := ⟨some "u2", "d", none, none, []⟩

/-- C2 counterexample: the fetch fails while a previously valid bundle
(index file present, stored identifier `"u1"`) exists on disk, yet the run
ends with the fetch error propagated (rethrown), not in the Ready
state. -/
theorem c2_counterexample :
    validateDocsDirectory fsC2 "d" = true
    ∧ (downloadAndExtractDocs envC2 fsC2).result = .error .fetchFailed
    ∧ (downloadAndExtractDocs envC2 fsC2).result ≠ .ok () := by
  refine ⟨rfl, rfl, by decide⟩

/-- C2 amended: on fetch failure `downloadAndExtractDocs` logs and
rethrows the error no matter what is on disk — there is no stale-bundle
fallback branch; the store is left untouched, so Retrieve for prior-known
names behaves exactly as before the failed run, but the failure is
propagated to the caller rather than degraded to Ready. -/
theorem c2_fetch_failure_propagates (env : ProvisionEnv) (fs : FileSystem)
    (url : String)
    (hurl : env.docsUrl = some url)
    (hne : jsIsEmpty url = false)
    (hch : hasUrlChanged fs env.docsDir url = true)
    (hfetch : env.fetchResult = none) :
    downloadAndExtractDocs env fs = ⟨fs, .error .fetchFailed, 1⟩
    ∧ ∀ lookup? name,
        readHytaleClassDocs (downloadAndExtractDocs env fs).fs lookup?
            env.docsDir name =
          readHytaleClassDocs fs lookup? env.docsDir name := by
  have hmain : downloadAndExtractDocs env fs = ⟨fs, .error .fetchFailed, 1⟩ := by
    unfold downloadAndExtractDocs
    rw [hurl]
    simp [hne, hch, hfetch]
  exact ⟨hmain, fun lookup? name => by rw [hmain]⟩

theorem c2_fetch_failure_propagates_witness :
    envC2.docsUrl = some "u2"
    ∧ jsIsEmpty "u2" = false
    ∧ hasUrlChanged fsC2 envC2.docsDir "u2" = true
    ∧ envC2.fetchResult = none
    ∧ (downloadAndExtractDocs envC2 fsC2 = ⟨fsC2, .error .fetchFailed, 1⟩
      ∧ ∀ lookup? name,
          readHytaleClassDocs (downloadAndExtractDocs envC2 fsC2).fs lookup?
              envC2.docsDir name =
            readHytaleClassDocs fsC2 lookup? envC2.docsDir name) :=
  ⟨rfl, rfl, by decide, rfl,
    c2_fetch_failure_propagates envC2 fsC2 "u2" rfl rfl (by decide) rfl⟩

/-- C7: the persisted BundleIdentifier is written only after extraction
succeeds and validation passes — whenever a provisioning run changes the
stored identifier, that run returned successfully, its final store passes
validation, and the stored identifier is exactly the configured URL.
(Hypothesis: the archive does not itself carry a file at the marker's
path `.last-download-url`, which would let extraction clobber the marker
as ordinary data.) -/
theorem c7_persist_only_after_validation (env : ProvisionEnv) (fs : FileSystem)
    (hav : archiveAvoidsMarker env = true)
    (hch : storedId (downloadAndExtractDocs env fs).fs env.docsDir ≠
      storedId fs env.docsDir) :
    (downloadAndExtractDocs env fs).result = .ok ()
    ∧ validateDocsDirectory (downloadAndExtractDocs env fs).fs env.docsDir = true
    ∧ storedId (downloadAndExtractDocs env fs).fs env.docsDir = env.docsUrl := by
  cases hu : env.docsUrl with
  | none =>
    rw [show downloadAndExtractDocs env fs = ⟨fs, .ok (), 0⟩ from by
      unfold downloadAndExtractDocs; rw [hu]] at hch
    exact absurd rfl hch
  | some url =>
    cases hne : jsIsEmpty url with
    | true =>
      rw [show downloadAndExtractDocs env fs = ⟨fs, .ok (), 0⟩ from by
        unfold downloadAndExtractDocs; rw [hu]; simp [hne]] at hch
      exact absurd rfl hch
    | false =>
      cases hchg : hasUrlChanged fs env.docsDir url with
      | false =>
        rw [show downloadAndExtractDocs env fs = ⟨fs, .ok (), 0⟩ from by
          unfold downloadAndExtractDocs; rw [hu]; simp [hne, hchg]] at hch
        exact absurd rfl hch
      | true =>
        cases hf : env.fetchResult with
        | none =>
          rw [show downloadAndExtractDocs env fs = ⟨fs, .error .fetchFailed, 1⟩
              from by
            unfold downloadAndExtractDocs; rw [hu]; simp [hne, hchg, hf]] at hch
          exact absurd rfl hch
        | some entries =>
          have hmark : ∀ e ∈ entries,
              pathJoin env.docsDir e.1 ≠ lastUrlPath env.docsDir := by
            intro e he
            have hall := hav
            unfold archiveAvoidsMarker at hall
            rw [hf] at hall
            have hone := List.all_eq_true.mp hall e he
            intro hcontra
            rw [hcontra] at hone
            simp at hone
          have hsid := storedId_extractZip fs env.docsDir entries
            env.extractFailAfter hmark
          cases hext : extractZip fs env.docsDir entries env.extractFailAfter with
          | mk fs1 okFlag =>
            rw [hext] at hsid
            cases okFlag with
            | false =>
              rw [show downloadAndExtractDocs env fs =
                  ⟨fs1, .error .extractFailed, 1⟩ from by
                unfold downloadAndExtractDocs
                rw [hu]
                simp [hne, hchg, hf, hext]] at hch
              exact absurd hsid hch
            | true =>
              cases hval : validateDocsDirectory fs1 env.docsDir with
              | false =>
                rw [show downloadAndExtractDocs env fs =
                    ⟨fs1, .error .invalidBundle, 1⟩ from by
                  unfold downloadAndExtractDocs
                  rw [hu]
                  simp [hne, hchg, hf, hext, hval]] at hch
                exact absurd hsid hch
              | true =>
                have houtcome : downloadAndExtractDocs env fs =
                    ⟨saveLastUrl fs1 env.writeFails env.docsDir url, .ok (), 1⟩ := by
                  unfold downloadAndExtractDocs
                  rw [hu]
                  simp [hne, hchg, hf, hext, hval]
                cases hw : env.writeFails.contains (lastUrlPath env.docsDir) with
                | true =>
                  rw [houtcome] at hch
                  unfold saveLastUrl at hch
                  rw [if_pos hw] at hch
                  exact absurd hsid hch
                | false =>
                  have hsave : saveLastUrl fs1 env.writeFails env.docsDir url =
                      fs1.write (lastUrlPath env.docsDir) url := by
                    unfold saveLastUrl
                    rw [if_neg (by rw [hw]; exact Bool.false_ne_true)]
                  rw [houtcome, hsave]
                  refine ⟨rfl, ?_, ?_⟩
                  · exact validate_write_marker fs1 env.docsDir url hval
                  · unfold storedId
                    show (fs1.write (lastUrlPath env.docsDir) url).read
                      (lastUrlPath env.docsDir) = some url
                    exact FileSystem.read_write_self fs1 _ url

def envC7 : ProvisionEnv :=
  ⟨some "u2", "d", some [("class_lookup.json", "J")], none, []⟩

def fsC7 : FileSystem := ⟨[], []⟩

theorem c7_persist_only_after_validation_witness :
    archiveAvoidsMarker envC7 = true
    ∧ storedId (downloadAndExtractDocs envC7 fsC7).fs envC7.docsDir ≠
        storedId fsC7 envC7.docsDir
    ∧ ((downloadAndExtractDocs envC7 fsC7).result = .ok ()
      ∧ validateDocsDirectory (downloadAndExtractDocs envC7 fsC7).fs
          envC7.docsDir = true
      ∧ storedId (downloadAndExtractDocs envC7 fsC7).fs envC7.docsDir =
          envC7.docsUrl) :=
  ⟨by decide, by decide,
    c7_persist_only_after_validation envC7 fsC7 (by decide) (by decide)⟩

/-- C8: provisioning is idempotent on an unchanged identifier.  After any
successful run (whose marker write did not fail), running again with the
same configuration takes the fast path: zero network calls and a
byte-identical store.  An absent stored-identifier file is treated as a
change. -/
theorem c8_idempotent_unchanged_url (env : ProvisionEnv) (fs : FileSystem)
    (url : String)
    (hurl : env.docsUrl = some url)
    (hne : jsIsEmpty url = false)
    (hwf : env.writeFails.contains (lastUrlPath env.docsDir) = false)
    (hok : (downloadAndExtractDocs env fs).result = .ok ()) :
    downloadAndExtractDocs env (downloadAndExtractDocs env fs).fs =
      ⟨(downloadAndExtractDocs env fs).fs, .ok (), 0⟩
    ∧ (∀ g : FileSystem, g.read (lastUrlPath env.docsDir) = none →
        hasUrlChanged g env.docsDir url = true) := by
  constructor
  · cases hchg : hasUrlChanged fs env.docsDir url with
    | false =>
      have hfast : downloadAndExtractDocs env fs = ⟨fs, .ok (), 0⟩ := by
        unfold downloadAndExtractDocs
        rw [hurl]
        simp [hne, hchg]
      rw [hfast]
      exact hfast
    | true =>
      cases hf : env.fetchResult with
      | none =>
        exfalso
        rw [show downloadAndExtractDocs env fs = ⟨fs, .error .fetchFailed, 1⟩
            from by
          unfold downloadAndExtractDocs; rw [hurl]; simp [hne, hchg, hf]] at hok
        exact absurd hok (by simp)
      | some entries =>
        cases hext : extractZip fs env.docsDir entries env.extractFailAfter with
        | mk fs1 okFlag =>
          cases okFlag with
          | false =>
            exfalso
            rw [show downloadAndExtractDocs env fs =
                ⟨fs1, .error .extractFailed, 1⟩ from by
              unfold downloadAndExtractDocs
              rw [hurl]
              simp [hne, hchg, hf, hext]] at hok
            exact absurd hok (by simp)
          | true =>
            cases hval : validateDocsDirectory fs1 env.docsDir with
            | false =>
              exfalso
              rw [show downloadAndExtractDocs env fs =
                  ⟨fs1, .error .invalidBundle, 1⟩ from by
                unfold downloadAndExtractDocs
                rw [hurl]
                simp [hne, hchg, hf, hext, hval]] at hok
              exact absurd hok (by simp)
            | true =>
              have hsave : saveLastUrl fs1 env.writeFails env.docsDir url =
                  fs1.write (lastUrlPath env.docsDir) url := by
                unfold saveLastUrl
                rw [if_neg (by rw [hwf]; exact Bool.false_ne_true)]
              have houtcome : downloadAndExtractDocs env fs =
                  ⟨fs1.write (lastUrlPath env.docsDir) url, .ok (), 1⟩ := by
                unfold downloadAndExtractDocs
                rw [hurl]
                simp [hne, hchg, hf, hext, hval, hsave]
              rw [houtcome]
              have hre : hasUrlChanged
                  (fs1.write (lastUrlPath env.docsDir) url) env.docsDir url =
                  false := by
                unfold hasUrlChanged
                rw [show (fs1.write (lastUrlPath env.docsDir) url).read
                    (lastUrlPath env.docsDir) = some url from
                  FileSystem.read_write_self fs1 _ url]
                simp
              unfold downloadAndExtractDocs
              rw [hurl]
              simp [hne, hre]
  · intro g hg
    unfold hasUrlChanged
    rw [hg]

def envC8 : ProvisionEnv := ⟨some "u", "d", none, none, []⟩

def fsC8 : FileSystem := ⟨["d"], [("d/.last-download-url", "u")]⟩

theorem c8_idempotent_unchanged_url_witness :
    envC8.docsUrl = some "u"
    ∧ jsIsEmpty "u" = false
    ∧ envC8.writeFails.contains (lastUrlPath envC8.docsDir) = false
    ∧ (downloadAndExtractDocs envC8 fsC8).result = .ok ()
    ∧ (downloadAndExtractDocs envC8 (downloadAndExtractDocs envC8 fsC8).fs =
        ⟨(downloadAndExtractDocs envC8 fsC8).fs, .ok (), 0⟩
      ∧ (∀ g : FileSystem, g.read (lastUrlPath envC8.docsDir) = none →
          hasUrlChanged g envC8.docsDir "u" = true)) :=
  ⟨rfl, rfl, rfl, rfl,
    c8_idempotent_unchanged_url envC8 fsC8 "u" rfl rfl rfl rfl⟩

def infoC9 : ClassInfo := ⟨"a.Foo", "missing.md", "class", "a"⟩

def lkC9 : ClassLookup := [("a.Foo", infoC9)]

/-- A concrete stand-in for `JSON.parse` in the C9 scenario: the content
`"J9"` parses to `lkC9`, everything else is unparseable. -/
def parseC9 : String → Option ClassLookup :=
  fun s => if s == "J9" then some lkC9 else none

def envC9 : ProvisionEnv :=
  ⟨some "u9", "d", some [("class_lookup.json", "J9")], none, []⟩

def fsC9 : FileSystem := ⟨[], []⟩

/-- C9 counterexample: a provisioning run that succeeds although the
extracted bundle's index references a body file (`missing.md`) that does
not exist in the store — validation checked only the presence of the index
file, never the per-entry backing files, refuting the claim that a
successful run establishes every entry's file exists. -/
theorem c9_counterexample :
    (downloadAndExtractDocs envC9 fsC9).result = .ok ()
    ∧ (loadLookup parseC9 (downloadAndExtractDocs envC9 fsC9).fs
        (pathJoin "d" "class_lookup.json") ⟨none⟩).1 = some lkC9
    ∧ entryFilesExist (downloadAndExtractDocs envC9 fsC9).fs "d" lkC9 = false := by
  refine ⟨rfl, rfl, rfl⟩

/-- C9 amended: provisioning-time validation checks exactly that the store
directory exists and that the index file `class_lookup.json` exists; it
does not inspect index entries, so a successful run does not guarantee
per-entry backing files (a miss surfaces only at Retrieve time as a
file-read error). -/
theorem c9_validation_checks_only_index (fs : FileSystem) (docsDir : String) :
    validateDocsDirectory fs docsDir = true ↔
      docsDir ∈ fs.dirs
      ∧ ∃ c, fs.read (pathJoin docsDir "class_lookup.json") = some c := by
  unfold validateDocsDirectory
  rw [Bool.and_eq_true]
  constructor
  · rintro ⟨h1, h2⟩
    exact ⟨by simpa using h1, Option.isSome_iff_exists.mp h2⟩
  · rintro ⟨h1, h2⟩
    exact ⟨by simpa using h1, Option.isSome_iff_exists.mpr h2⟩

/-- C10: a failure to persist the marker after successful download,
extraction, and validation does not fail provisioning — the write error is
caught and only logged, the run completes as a success (one network call),
the stored identifier keeps its old value, and the URL still counts as
changed on the next startup (which therefore re-downloads). -/
theorem c10_save_failure_tolerated (env : ProvisionEnv) (fs : FileSystem)
    (url : String) (entries : List (String × String))
    (hurl : env.docsUrl = some url)
    (hne : jsIsEmpty url = false)
    (hch : hasUrlChanged fs env.docsDir url = true)
    (hf : env.fetchResult = some entries)
    (hext : env.extractFailAfter = none)
    (hval : validateDocsDirectory (extractZip fs env.docsDir entries none).1
      env.docsDir = true)
    (hw : env.writeFails.contains (lastUrlPath env.docsDir) = true)
    (hav : archiveAvoidsMarker env = true) :
    (downloadAndExtractDocs env fs).result = .ok ()
    ∧ (downloadAndExtractDocs env fs).networkCalls = 1
    ∧ storedId (downloadAndExtractDocs env fs).fs env.docsDir =
        storedId fs env.docsDir
    ∧ hasUrlChanged (downloadAndExtractDocs env fs).fs env.docsDir url = true := by
  have hmark : ∀ e ∈ entries,
      pathJoin env.docsDir e.1 ≠ lastUrlPath env.docsDir := by
    intro e he
    have hall := hav
    unfold archiveAvoidsMarker at hall
    rw [hf] at hall
    have hone := List.all_eq_true.mp hall e he
    intro hcontra
    rw [hcontra] at hone
    simp at hone
  cases hextz : extractZip fs env.docsDir entries none with
  | mk fs1 okFlag =>
    have hok : okFlag = true := by
      have : (extractZip fs env.docsDir entries none).2 = true := rfl
      rw [hextz] at this
      exact this
    subst hok
    have hval1 : validateDocsDirectory fs1 env.docsDir = true := by
      rw [hextz] at hval
      exact hval
    have hsave : saveLastUrl fs1 env.writeFails env.docsDir url = fs1 := by
      unfold saveLastUrl
      rw [if_pos hw]
    have houtcome : downloadAndExtractDocs env fs = ⟨fs1, .ok (), 1⟩ := by
      unfold downloadAndExtractDocs
      rw [hurl, hext]
      simp [hne, hch, hf, hextz, hval1, hsave]
    have hsid : fs1.read (lastUrlPath env.docsDir) =
        fs.read (lastUrlPath env.docsDir) := by
      have := storedId_extractZip fs env.docsDir entries none hmark
      rw [hextz] at this
      exact this
    rw [houtcome]
    refine ⟨rfl, rfl, ?_, ?_⟩
    · unfold storedId
      exact hsid
    · unfold hasUrlChanged
      rw [hsid]
      unfold hasUrlChanged at hch
      exact hch

def envC10 : ProvisionEnv :=
  ⟨some "u2", "d", some [("class_lookup.json", "J")], none,
    ["d/.last-download-url"]⟩

def fsC10 : FileSystem := ⟨[], []⟩

theorem c10_save_failure_tolerated_witness :
    envC10.docsUrl = some "u2"
    ∧ jsIsEmpty "u2" = false
    ∧ hasUrlChanged fsC10 envC10.docsDir "u2" = true
    ∧ envC10.fetchResult = some [("class_lookup.json", "J")]
    ∧ envC10.extractFailAfter = none
    ∧ validateDocsDirectory
        (extractZip fsC10 envC10.docsDir [("class_lookup.json", "J")] none).1
        envC10.docsDir = true
    ∧ envC10.writeFails.contains (lastUrlPath envC10.docsDir) = true
    ∧ archiveAvoidsMarker envC10 = true
    ∧ ((downloadAndExtractDocs envC10 fsC10).result = .ok ()
      ∧ (downloadAndExtractDocs envC10 fsC10).networkCalls = 1
      ∧ storedId (downloadAndExtractDocs envC10 fsC10).fs envC10.docsDir =
          storedId fsC10 envC10.docsDir
      ∧ hasUrlChanged (downloadAndExtractDocs envC10 fsC10).fs envC10.docsDir
          "u2" = true) :=
  ⟨rfl, rfl, by decide, rfl, rfl, by decide, by decide, by decide,
    c10_save_failure_tolerated envC10 fsC10 "u2" [("class_lookup.json", "J")]
      rfl rfl (by decide) rfl rfl (by decide) (by decide) (by decide)⟩

end Hydocs
